import Mathlib

/-!
Shallow embedding of `github-zipball-collector.py`: a one-shot batch tool
that lists a GitHub user's public repositories page by page and downloads
each repository's zipball archive into a timestamped directory.

The network is modelled as a pure map from URLs to responses; the
filesystem, the log and the trace of HTTP calls are threaded explicitly
through a `St` state record.  The pagination `while` loop is embedded with
explicit fuel, so non-termination of the Python loop shows up as `none`.
-/

namespace GithubZipballCollector

/-- A repository record: the JSON object returned for one repository,
modelled as an association list of string fields (the program only ever
reads string-valued fields `name` and `html_url`). -/
abbrev RepoRecord := List (String × String)

/-- Python dict lookup `r[k]` made total: `none` models a raised `KeyError`. -/
def dictGet (r : RepoRecord) (k : String) : Option String :=
  (r.find? (fun p => p.1 == k)).map (fun p => p.2)

/-- An element of the accumulator `all_pages_content`.  A well-behaved page
is a JSON array and contributes repository records; but Python's
`list += dict` extends the list with the dict's keys, so a non-sequence
page contributes bare strings. -/
inductive Item where
  | record (r : RepoRecord)
  | key (s : String)
deriving DecidableEq

/-- One response of the paginated listing endpoint, as parsed JSON: either a
JSON array of repository records or a non-sequence document (e.g. a GitHub
error object) with string fields. -/
inductive Page where
  | arr (records : List RepoRecord)
  | obj (fields : List (String × String))
deriving DecidableEq

/-- Python truthiness of a parsed JSON document: a list or dict is truthy
iff it is non-empty. -/
def Page.truthy : Page → Bool
  | .arr rs => !rs.isEmpty
  | .obj fs => !fs.isEmpty

/-- What `all_pages_content += page` appends: the records of an array page,
or the keys of a dict page. -/
def Page.items : Page → List Item
  | .arr rs => rs.map Item.record
  | .obj fs => fs.map (fun p => Item.key p.1)

/-- The two HTTP Gateway variants. -/
inductive Variant where
  | requests
  | urllib
deriving DecidableEq

/-- Kind of an HTTP call made through the Gateway. -/
inductive ReqKind where
  | fetchJson
  | downloadFile
deriving DecidableEq

/-- One HTTP call made during a run, as recorded in the trace. -/
structure Req where
  variant : Variant
  kind : ReqKind
  url : String
deriving DecidableEq

/-- An HTTP response to a download request: status code and raw body. -/
structure Response where
  status : Nat
  body : String
deriving DecidableEq

/-- The network, as a pure environment: `jsonAt` gives the parsed JSON
document served at a listing URL, `fileAt` the response served at a
download URL. -/
structure Network where
  jsonAt : String → Page
  fileAt : String → Response

/-- Observable state of a run: directories and files on disk, the log lines
emitted so far, and the trace of HTTP calls made through the Gateway. -/
structure St where
  fs_dirs : List String
  fs_files : List (String × String)
  log : List String
  trace : List Req
deriving DecidableEq

/-- The empty initial state. -/
def st0 : St := ⟨[], [], [], []⟩

/-- Append a log line (`logging.info` / `logging.debug` to stdout). -/
def putLog (st : St) (line : String) : St :=
  { st with log := st.log ++ [line] }

/-- Write (create or overwrite) the file at `path` with `content`. -/
def writeFile (st : St) (path content : String) : St :=
  { st with fs_files := (path, content) :: st.fs_files.filter (fun p => p.1 != path) }

/-- Content of the file at `path`, if it exists. -/
def fileContent (st : St) (path : String) : Option String :=
  (st.fs_files.find? (fun p => p.1 == path)).map (fun p => p.2)

/-- The listing URL built by `request_for_page`:
`https://api.github.com/users/{user}/repos?per_page=100&page={page}`. -/
def listingUrl (user : String) (page : Nat) : String :=
  "https://api.github.com/users/" ++ user ++ "/repos?per_page=100&page=" ++ toString page

/-- Embeds `request_for_page(user, page)`: one `request_for_json` call through the
selected Gateway variant; records the call in the trace and returns the
parsed document served at the listing URL. -/
def request_for_page (client : Variant) (net : Network) (user : String) (page : Nat)
    (st : St) : Page × St :=
  let url := listingUrl user page
  (net.jsonAt url, { st with trace := st.trace ++ [⟨client, ReqKind.fetchJson, url⟩] })

/-- The `while page := request_for_page(user, page_index)` loop of
`request_for_public_repositories`, with explicit fuel: each iteration
fetches the page at the current index, stops (returning the accumulator)
when the page is falsy, and otherwise appends the page's items and moves to
the next index.  `none` means the fuel ran out with the loop still
running. -/
def repoLoop (client : Variant) (net : Network) (user : String) :
    Nat → Nat → List Item → St → Option (List Item × St)
  | 0, _, _, _ => none
  | fuel + 1, idx, acc, st =>
    let (page, st') := request_for_page client net user idx st
    if page.truthy then repoLoop client net user fuel (idx + 1) (acc ++ page.items) st'
    else some (acc, st')

/-- Embeds `request_for_public_repositories(user)`: run the pagination loop from
page index 0 with an empty accumulator. -/
def request_for_public_repositories (client : Variant) (net : Network) (user : String)
    (fuel : Nat) (st : St) : Option (List Item × St) :=
  repoLoop client net user fuel 0 [] st

/-- An uncaught Python exception of the embedded run.  `httpError` is
`urllib.error.HTTPError`, raised inside `urlretrieve` when the final
response status is not 2xx. -/
inductive PyErr where
  | keyError (k : String)
  | typeError
  | httpError (status : Nat)
deriving DecidableEq

/-- Embeds `download_file(url, directory, repository_name)` of the selected Gateway
variant.  Both variants record the HTTP call in the trace.  The
`RequestsHttpClient` variant checks `status_code == 200` and writes
`{directory}/{repository_name}.zip` only then; the `UrllibHttpClient`
variant calls `urlretrieve`, which itself checks the final response status:
it writes the body for a 2xx status and raises `urllib.error.HTTPError`
(writing nothing) for any other status — the program's own code never
looks at the status in this variant. -/
def download_file (client : Variant) (net : Network) (url directory repository_name : String)
    (st : St) : St × Option PyErr :=
  let st' := { st with trace := st.trace ++ [⟨client, ReqKind.downloadFile, url⟩] }
  let resp := net.fileAt url
  let path := directory ++ "/" ++ repository_name ++ ".zip"
  match client with
  | .requests => (if resp.status = 200 then writeFile st' path resp.body else st', none)
  | .urllib =>
    if 200 ≤ resp.status ∧ resp.status < 300 then (writeFile st' path resp.body, none)
    else (st', some (PyErr.httpError resp.status))

/-- Embeds `save_repositories(repositories, directory)`: for each record, look up
`name` and `html_url` (a missing key raises `KeyError`; a bare-string item
raises `TypeError` on subscripting), build
`zipball_url = {html_url}/zipball/master/`, log, and download.  The second
component is the uncaught exception, if one was raised. -/
def save_repositories (client : Variant) (net : Network) :
    List Item → String → St → St × Option PyErr
  | [], _, st => (st, none)
  | .key _ :: _, _, st => (st, some PyErr.typeError)
  | .record r :: rest, directory, st =>
    match dictGet r "name" with
    | none => (st, some (PyErr.keyError "name"))
    | some repository_name =>
      match dictGet r "html_url" with
      | none => (st, some (PyErr.keyError "html_url"))
      | some html_url =>
        let zipball_url := html_url ++ "/zipball/master/"
        let st' := putLog st ("Saving repository " ++ repository_name ++ " to " ++ directory)
        match download_file client net zipball_url directory repository_name st' with
        | (st2, some e) => (st2, some e)
        | (st2, none) => save_repositories client net rest directory st2

/-- The download at `url` raises nothing, whatever destination and state it
is invoked with. -/
def downloadOk (client : Variant) (net : Network) (url : String) : Prop :=
  ∀ directory repository_name st,
    (download_file client net url directory repository_name st).2 = none

lemma downloadOk_requests (net : Network) (url : String) :
    downloadOk Variant.requests net url := by
  intro directory repository_name st
  simp only [download_file]

lemma downloadOk_of_2xx (client : Variant) (net : Network) (url : String)
    (h : 200 ≤ (net.fileAt url).status ∧ (net.fileAt url).status < 300) :
    downloadOk client net url := by
  intro directory repository_name st
  cases client with
  | requests => simp only [download_file]
  | urllib =>
    simp only [download_file]
    rw [if_pos h]

/-- The per-item loop of `print_received_repositories`: logs
`Public repository: {repository['name']}` for each record. -/
def printLoop : List Item → St → St × Option PyErr
  | [], st => (st, none)
  | .key _ :: _, st => (st, some PyErr.typeError)
  | .record r :: rest, st =>
    match dictGet r "name" with
    | none => (st, some (PyErr.keyError "name"))
    | some n => printLoop rest (putLog st ("Public repository: " ++ n))

/-- Embeds `print_received_repositories(repositories)`. -/
def print_received_repositories (repositories : List Item) (st : St) : St × Option PyErr :=
  printLoop repositories (putLog st "Got public repositories: ")

/-- A clock reading, as observed by one `time.strftime` call. -/
structure DateTime where
  year : Nat
  month : Nat
  day : Nat
  hour : Nat
  minute : Nat
  second : Nat
deriving DecidableEq

/-- Two-digit zero padding, as `strftime` does for `%m %d %H %M %S`. -/
def pad2 (n : Nat) : String :=
  if n < 10 then "0" ++ toString n else toString n

/-- Embeds `time.strftime` with format `%Y-%m-%d` at clock reading `t`. -/
def fmtDate (t : DateTime) : String :=
  toString t.year ++ "-" ++ pad2 t.month ++ "-" ++ pad2 t.day

/-- Embeds `time.strftime` with format `%H-%M-%S` at clock reading `t`. -/
def fmtTime (t : DateTime) : String :=
  pad2 t.hour ++ "-" ++ pad2 t.minute ++ "-" ++ pad2 t.second

/-- The directory name f-string
`{user}-Date_{strftime %Y-%m-%d}-Time_{strftime %H-%M-%S}`.  The source
calls `time.strftime` twice, so the date part observes clock reading `t1`
and the time part observes the later clock reading `t2`. -/
def directoryName (user : String) (t1 t2 : DateTime) : String :=
  user ++ "-Date_" ++ fmtDate t1 ++ "-Time_" ++ fmtTime t2

/-- Embeds `create_directory_if_not_exist(user)`: build the timestamped name
(`os.path.abspath` is modelled as the identity, paths being relative to the
working directory), create the directory if absent (logging the creation),
and return the path. -/
def create_directory_if_not_exist (user : String) (t1 t2 : DateTime) (st : St) : String × St :=
  let directory := directoryName user t1 t2
  let abs_path := directory
  if abs_path ∈ st.fs_dirs then (abs_path, st)
  else (abs_path, { putLog st ("Creating directory " ++ abs_path) with
                      fs_dirs := st.fs_dirs ++ [abs_path] })

/-- Printable name of the selected Gateway instance, for the
`Http client: {http_client}` log line. -/
def variantName : Variant → String
  | .requests => "RequestsHttpClient"
  | .urllib => "UrllibHttpClient"

/-- Embeds `main(user)`: log the client, create the output directory, list all
public repositories (with `fuel` bounding the pagination loop; `none` means
the loop was still running when the fuel ran out), print them, save them,
and log `Completed`.  The result pairs the final state with the uncaught
exception, if one was raised. -/
def main (client : Variant) (net : Network) (user : String) (t1 t2 : DateTime)
    (fuel : Nat) (st : St) : Option (St × Option PyErr) :=
  let st1 := putLog st ("Http client: " ++ variantName client)
  let (target_directory, st2) := create_directory_if_not_exist user t1 t2 st1
  let st3 := putLog st2 ("Saving zipball archives in following directory: " ++ target_directory)
  match request_for_public_repositories client net user fuel st3 with
  | none => none
  | some (repositories, st4) =>
    match print_received_repositories repositories st4 with
    | (st5, some e) => some (st5, some e)
    | (st5, none) =>
      match save_repositories client net repositories target_directory st5 with
      | (st6, some e) => some (st6, some e)
      | (st6, none) => some (putLog st6 "Completed", none)

/-- Module-level Gateway selection: `try: import requests ... except
ImportError`.  If the `requests` library is importable the
`RequestsHttpClient` variant is selected and nothing is printed; otherwise
the two fallback notices are printed (`errText` standing for `str(e)` of
the `ImportError`) and the `UrllibHttpClient` variant is selected. -/
def processStart (requestsAvailable : Bool) (errText : String) : Variant × List String :=
  if requestsAvailable then (Variant.requests, [])
  else (Variant.urllib,
        ["Unable to initialize requests http client, " ++ errText,
         "Fallback to urllib client..."])

/-- The Gateway variants that handled the HTTP calls of a run's trace. -/
def traceVariants : Option (St × Option PyErr) → List Variant
  | none => []
  | some (st, _) => st.trace.map (fun r => r.variant)

/-- The items contributed by the `d` consecutive pages starting at index
`idx`, in ascending page order. -/
def pagesConcat (net : Network) (user : String) : Nat → Nat → List Item
  | _, 0 => []
  | idx, d + 1 => (net.jsonAt (listingUrl user idx)).items ++ pagesConcat net user (idx + 1) d

lemma pagesConcat_eq (net : Network) (user : String) (pages : Nat → List RepoRecord) :
    ∀ (d idx : Nat),
      (∀ j, j < d → net.jsonAt (listingUrl user (idx + j)) = Page.arr (pages (idx + j))) →
      pagesConcat net user idx d =
        (((List.range d).map (fun j => pages (idx + j))).flatten).map Item.record := by
  intro d
  induction d with
  | zero => intro idx _; simp [pagesConcat]
  | succ d ih =>
    intro idx h
    have h0 := h 0 (Nat.succ_pos d)
    rw [Nat.add_zero] at h0
    have h1 : ∀ j, j < d →
        net.jsonAt (listingUrl user (idx + 1 + j)) = Page.arr (pages (idx + 1 + j)) := by
      intro j hj
      have e : idx + 1 + j = idx + (j + 1) := by omega
      rw [e]; exact h (j + 1) (by omega)
    have e2 : ∀ j, idx + 1 + j = idx + (j + 1) := fun j => by omega
    simp only [pagesConcat, ih (idx + 1) h1, h0, Page.items, List.range_succ_eq_map,
      List.map_map, List.map_cons, List.flatten_cons, List.map_append, e2, Nat.add_zero]
    exact congrArg (fun l => List.map Item.record (pages idx) ++ l)
      (congrArg (List.map Item.record)
        (congrArg List.flatten (List.map_congr_left (fun j _ => rfl))))

lemma repoLoop_succ (client : Variant) (net : Network) (user : String)
    (fuel idx : Nat) (acc : List Item) (st : St) :
    repoLoop client net user (fuel + 1) idx acc st =
      if (net.jsonAt (listingUrl user idx)).truthy then
        repoLoop client net user fuel (idx + 1)
          (acc ++ (net.jsonAt (listingUrl user idx)).items)
          { st with trace := st.trace ++ [⟨client, ReqKind.fetchJson, listingUrl user idx⟩] }
      else
        some (acc,
          { st with trace := st.trace ++ [⟨client, ReqKind.fetchJson, listingUrl user idx⟩] }) :=
  rfl

lemma repoLoop_stops (client : Variant) (net : Network) (user : String) :
    ∀ (d idx : Nat) (acc : List Item) (st : St),
      (∀ j, j < d → (net.jsonAt (listingUrl user (idx + j))).truthy = true) →
      (net.jsonAt (listingUrl user (idx + d))).truthy = false →
      ∃ st', repoLoop client net user (d + 1) idx acc st =
          some (acc ++ pagesConcat net user idx d, st') ∧
        st'.fs_dirs = st.fs_dirs ∧ st'.fs_files = st.fs_files ∧ st'.log = st.log := by
  intro d
  induction d with
  | zero =>
    intro idx acc st _ hfalsy
    rw [Nat.add_zero] at hfalsy
    refine ⟨{ st with trace := st.trace ++ [⟨client, ReqKind.fetchJson, listingUrl user idx⟩] },
      ?_, rfl, rfl, rfl⟩
    rw [repoLoop_succ]
    simp [hfalsy, pagesConcat]
  | succ d ih =>
    intro idx acc st htruthy hfalsy
    have h0 := htruthy 0 (Nat.succ_pos d)
    rw [Nat.add_zero] at h0
    have h1 : ∀ j, j < d → (net.jsonAt (listingUrl user (idx + 1 + j))).truthy = true := by
      intro j hj
      have e : idx + 1 + j = idx + (j + 1) := by omega
      rw [e]; exact htruthy (j + 1) (by omega)
    have h2 : (net.jsonAt (listingUrl user (idx + 1 + d))).truthy = false := by
      have e : idx + 1 + d = idx + (d + 1) := by omega
      rw [e]; exact hfalsy
    obtain ⟨st', hst', hd, hf, hl⟩ := ih (idx + 1)
      (acc ++ (net.jsonAt (listingUrl user idx)).items)
      ({ st with trace := st.trace ++ [⟨client, ReqKind.fetchJson, listingUrl user idx⟩] })
      h1 h2
    refine ⟨st', ?_, hd, hf, hl⟩
    rw [repoLoop_succ, if_pos h0, hst']
    simp [pagesConcat, List.append_assoc]

/-- Claim C1: for every paginated listing sequence in which page `k` is the
first empty page, `request_for_public_repositories` returns exactly the
concatenation of pages `0` through `k-1`, in ascending page order with
within-page order preserved; the hypotheses constrain only pages `0..k`, so
the result is independent of the contents of any page after `k`. -/
theorem lister_concatenates_pages (client : Variant) (net : Network) (user : String)
    (st : St) (pages : Nat → List RepoRecord) (k : Nat)
    (hpage : ∀ i, i ≤ k → net.jsonAt (listingUrl user i) = Page.arr (pages i))
    (hk : pages k = [])
    (hne : ∀ i, i < k → pages i ≠ []) :
    ∃ st', request_for_public_repositories client net user (k + 1) st =
      some ((((List.range k).map pages).flatten).map Item.record, st') := by
  have htruthy : ∀ j, j < k → (net.jsonAt (listingUrl user (0 + j))).truthy = true := by
    intro j hj
    rw [Nat.zero_add, hpage j (Nat.le_of_lt hj)]
    simp [Page.truthy, hne j hj]
  have hfalsy : (net.jsonAt (listingUrl user (0 + k))).truthy = false := by
    rw [Nat.zero_add, hpage k le_rfl]
    simp [Page.truthy, hk]
  obtain ⟨st', hst', _, _, _⟩ := repoLoop_stops client net user k 0 [] st htruthy hfalsy
  refine ⟨st', ?_⟩
  rw [request_for_public_repositories, hst']
  have harr : ∀ j, j < k → net.jsonAt (listingUrl user (0 + j)) = Page.arr (pages (0 + j)) := by
    intro j hj
    rw [Nat.zero_add]
    exact hpage j (Nat.le_of_lt hj)
  have e0 : ∀ j, 0 + j = j := fun j => Nat.zero_add j
  rw [pagesConcat_eq net user pages k 0 harr]
  simp [e0]

/-- The listing endpoint of a misbehaving forge that serves the same
non-empty JSON error object at every URL. -/
def errorNet : Network :=
  { jsonAt := fun _ => Page.obj [("message", "Not Found")],
    fileAt := fun _ => ⟨404, ""⟩ }

lemma errorNet_repoLoop_none :
    ∀ (fuel idx : Nat) (acc : List Item) (st : St),
      repoLoop Variant.requests errorNet "alice" fuel idx acc st = none := by
  intro fuel
  induction fuel with
  | zero => intro idx acc st; rfl
  | succ fuel ih =>
    intro idx acc st
    have h : (errorNet.jsonAt (listingUrl "alice" idx)).truthy = true := rfl
    rw [repoLoop_succ, if_pos h]
    exact ih _ _ _

/-- Claim C5 counterexample: an endpoint that answers every listing request
with the non-empty JSON error object `{"message": "Not Found"}` makes the
pagination loop run forever: no amount of fuel makes it stop, because a
non-empty dict is truthy in Python, not falsy as the claim states. -/
theorem error_document_loops_forever :
    ¬ ∃ fuel res,
      request_for_public_repositories Variant.requests errorNet "alice" fuel st0 = some res := by
  rintro ⟨fuel, res, h⟩
  rw [request_for_public_repositories, errorNet_repoLoop_none fuel 0 [] st0] at h
  exact Option.noConfusion h

/-- Claim C5 (amended): the pagination loop stops as soon as a page is
falsy, i.e. an empty sequence or an empty document; but a non-empty
non-sequence error document such as `{"message": "Not Found"}` is truthy,
so the loop does not stop on it. -/
theorem lister_stops_at_first_falsy_page (client : Variant) (net : Network) (user : String)
    (st : St) (k : Nat)
    (hfalsy : (net.jsonAt (listingUrl user k)).truthy = false)
    (htruthy : ∀ i, i < k → (net.jsonAt (listingUrl user i)).truthy = true) :
    (∃ res, request_for_public_repositories client net user (k + 1) st = some res) ∧
      Page.truthy (Page.obj [("message", "Not Found")]) = true := by
  refine ⟨?_, rfl⟩
  have ht : ∀ j, j < k → (net.jsonAt (listingUrl user (0 + j))).truthy = true := by
    intro j hj; rw [Nat.zero_add]; exact htruthy j hj
  have hf : (net.jsonAt (listingUrl user (0 + k))).truthy = false := by
    rw [Nat.zero_add]; exact hfalsy
  obtain ⟨st', hst', _⟩ := repoLoop_stops client net user k 0 [] st ht hf
  exact ⟨_, hst'⟩

/-- A concrete well-formed repository record, as in the spec's round-trip
scenario. -/
def fooRecord : RepoRecord := [("name", "foo"), ("html_url", "https://github.com/alice/foo")]

/-- A concrete well-behaved network: page 0 lists `fooRecord`, every later
page is empty, and every download answers 404. -/
def netW : Network :=
  { jsonAt := fun url => if url == listingUrl "alice" 0 then Page.arr [fooRecord] else Page.arr [],
    fileAt := fun _ => ⟨404, "error page"⟩ }

/-- The listing pages served by `netW`. -/
def pagesW : Nat → List RepoRecord := fun i => if i == 0 then [fooRecord] else []

/-- Witness for C1: on the concrete network `netW` (page 0 = `[fooRecord]`,
page 1 empty) the Lister returns exactly page 0. -/
theorem lister_concatenates_pages_witness :
    ∃ st', request_for_public_repositories Variant.requests netW "alice" 2 st0 =
      some ([Item.record fooRecord], st') := by
  exact lister_concatenates_pages Variant.requests netW "alice" st0 pagesW 1
    (by decide) (by decide) (by decide)

/-- A concrete network whose page 0 lists `fooRecord` and whose page 1 is
an empty (hence falsy) JSON document. -/
def netE : Network :=
  { jsonAt := fun url => if url == listingUrl "alice" 0 then Page.arr [fooRecord] else Page.obj [],
    fileAt := fun _ => ⟨404, ""⟩ }

/-- Witness for the amended C5: on `netE` page 0 is truthy and page 1 is an
empty document, so the loop stops. -/
theorem lister_stops_at_first_falsy_page_witness :
    (∃ res, request_for_public_repositories Variant.urllib netE "alice" 2 st0 = some res) ∧
      Page.truthy (Page.obj [("message", "Not Found")]) = true := by
  exact lister_stops_at_first_falsy_page Variant.urllib netE "alice" st0 1
    (by decide) (by decide)

/-- Claim C6: the output directory name is exactly
`{username}-Date_{YYYY-MM-DD}-Time_{HH-MM-SS}` at the observed clock
reading; concretely, for username `bob` on 2024-03-05 at 14:07:22 the name
is exactly `bob-Date_2024-03-05-Time_14-07-22`. -/
theorem directory_name_format :
    (∀ (user : String) (t : DateTime) (st : St),
        (create_directory_if_not_exist user t t st).1 =
          user ++ "-Date_" ++ fmtDate t ++ "-Time_" ++ fmtTime t) ∧
      (create_directory_if_not_exist "bob" ⟨2024, 3, 5, 14, 7, 22⟩ ⟨2024, 3, 5, 14, 7, 22⟩
          st0).1 = "bob-Date_2024-03-05-Time_14-07-22" := by
  constructor
  · intro user t st
    simp only [create_directory_if_not_exist]
    split <;> rfl
  · rfl

/-- Claim C10: the date and time parts of the directory name come from two
separate clock readings, so when the clock crosses midnight between them
the name pairs one day's date with the next day's time: read at
2024-03-05 23:59:59 and then at 2024-03-06 00:00:00, user `bob` gets the
directory `bob-Date_2024-03-05-Time_00-00-00`. -/
theorem two_separate_clock_readings :
    (∀ (user : String) (t1 t2 : DateTime) (st : St),
        (create_directory_if_not_exist user t1 t2 st).1 =
          user ++ "-Date_" ++ fmtDate t1 ++ "-Time_" ++ fmtTime t2) ∧
      (create_directory_if_not_exist "bob" ⟨2024, 3, 5, 23, 59, 59⟩ ⟨2024, 3, 6, 0, 0, 0⟩
          st0).1 = "bob-Date_2024-03-05-Time_00-00-00" := by
  constructor
  · intro user t1 t2 st
    simp only [create_directory_if_not_exist]
    split <;> rfl
  · rfl

/-- Claim C3 counterexample: the claim says the urllib variant always
writes the response body on a non-success status; but on the concrete
network `netW`, whose download at `u` answers 404, the urllib variant
writes no file at all and raises `HTTPError 404` instead. -/
theorem urllib_404_writes_nothing :
    (netW.fileAt "u").status = 404 ∧
      (download_file Variant.urllib netW "u" "d" "r" st0).1.fs_files = [] ∧
      (download_file Variant.urllib netW "u" "d" "r" st0).2 =
        some (PyErr.httpError 404) := by
  decide

/-- Claim C3 (amended): on a non-2xx HTTP status, the requests-based
variant writes no file and raises nothing (silent no-op), while the
urllib-based variant — whose own code never checks the status — also
writes no file, because `urlretrieve` raises an uncaught `HTTPError`
carrying the status. -/
theorem download_status_asymmetry (net : Network) (url directory repository_name : String)
    (st : St)
    (h : ¬(200 ≤ (net.fileAt url).status ∧ (net.fileAt url).status < 300)) :
    ((download_file Variant.requests net url directory repository_name st).1.fs_files =
        st.fs_files ∧
      (download_file Variant.requests net url directory repository_name st).2 = none) ∧
      ((download_file Variant.urllib net url directory repository_name st).1.fs_files =
          st.fs_files ∧
        (download_file Variant.urllib net url directory repository_name st).2 =
          some (PyErr.httpError (net.fileAt url).status)) := by
  have h200 : ¬((net.fileAt url).status = 200) := by
    intro he
    exact h (by omega)
  refine ⟨⟨?_, ?_⟩, ?_, ?_⟩
  · simp [download_file, h200]
  · simp [download_file]
  · simp [download_file, h]
  · simp [download_file, h]

/-- Witness for the amended C3 on the concrete network `netW`, whose
downloads all answer status 404. -/
theorem download_status_asymmetry_witness :
    ((download_file Variant.requests netW "u" "d" "r" st0).1.fs_files = st0.fs_files ∧
      (download_file Variant.requests netW "u" "d" "r" st0).2 = none) ∧
      ((download_file Variant.urllib netW "u" "d" "r" st0).1.fs_files = st0.fs_files ∧
        (download_file Variant.urllib netW "u" "d" "r" st0).2 =
          some (PyErr.httpError (netW.fileAt "u").status)) := by
  exact download_status_asymmetry netW "u" "d" "r" st0 (by decide)

/-- Claim C4: a repository record with name `foo` and html_url
`https://github.com/alice/foo` makes the Exporter issue exactly one
download request, to `https://github.com/alice/foo/zipball/master/`, and on
a successful (status 200) download exactly one file is created, at
`{directory}/foo.zip`, holding the served body. -/
theorem round_trip_single_record (client : Variant) (net : Network) (directory : String)
    (h : (net.fileAt "https://github.com/alice/foo/zipball/master/").status = 200) :
    ∃ st', save_repositories client net [Item.record fooRecord] directory st0 = (st', none) ∧
      st'.trace.filter (fun r => r.kind == ReqKind.downloadFile) =
        [⟨client, ReqKind.downloadFile, "https://github.com/alice/foo/zipball/master/"⟩] ∧
      st'.fs_files = [(directory ++ "/foo.zip",
        (net.fileAt "https://github.com/alice/foo/zipball/master/").body)] := by
  have hname : dictGet fooRecord "name" = some "foo" := rfl
  have hurl : dictGet fooRecord "html_url" = some "https://github.com/alice/foo" := rfl
  have eurl : "https://github.com/alice/foo" ++ "/zipball/master/" =
      "https://github.com/alice/foo/zipball/master/" := rfl
  have epath : directory ++ "/" ++ "foo" ++ ".zip" = directory ++ "/foo.zip" := by
    rw [String.append_assoc, String.append_assoc]; rfl
  cases client with
  | requests =>
    simp only [save_repositories, hname, hurl, eurl, download_file]
    rw [if_pos h]
    refine ⟨_, rfl, by rfl, ?_⟩
    simp [writeFile, epath, st0, putLog]
  | urllib =>
    have h2xx : 200 ≤ (net.fileAt "https://github.com/alice/foo/zipball/master/").status ∧
        (net.fileAt "https://github.com/alice/foo/zipball/master/").status < 300 := by
      constructor <;> omega
    simp only [save_repositories, hname, hurl, eurl, download_file]
    rw [if_pos h2xx]
    refine ⟨_, rfl, by rfl, ?_⟩
    simp [writeFile, epath, st0, putLog]

/-- A concrete network serving every download with status 200. -/
def netOk : Network :=
  { jsonAt := fun _ => Page.arr [],
    fileAt := fun _ => ⟨200, "zip bytes"⟩ }

/-- Witness for C4 on the concrete network `netOk`, whose downloads all
succeed with status 200. -/
theorem round_trip_single_record_witness :
    ∃ st', save_repositories Variant.requests netOk [Item.record fooRecord] "dir" st0 =
        (st', none) ∧
      st'.trace.filter (fun r => r.kind == ReqKind.downloadFile) =
        [⟨Variant.requests, ReqKind.downloadFile,
          "https://github.com/alice/foo/zipball/master/"⟩] ∧
      st'.fs_files = [("dir" ++ "/foo.zip",
        (netOk.fileAt "https://github.com/alice/foo/zipball/master/").body)] := by
  exact round_trip_single_record Variant.requests netOk "dir" (by decide)

/-- A record is well formed when it has both fields the program reads. -/
abbrev wellFormed (r : RepoRecord) : Prop :=
  (dictGet r "name").isSome ∧ (dictGet r "html_url").isSome

/-- Claim C9: a repository record lacking `name` or `html_url` makes the
Exporter raise an uncaught `KeyError` at that record: for either Gateway
variant, however many well-formed records precede it (their downloads
answering 2xx, so that the loop really reaches the bad record) and
whatever follows it, `save_repositories` stops with a `KeyError` instead
of skipping the record or recovering. -/
theorem missing_key_aborts_exporter (client : Variant) (net : Network) (directory : String)
    (st : St) (pre : List RepoRecord) (bad : RepoRecord) (post : List Item)
    (hpre : ∀ r ∈ pre, wellFormed r)
    (hok : ∀ r ∈ pre,
      200 ≤ (net.fileAt ((dictGet r "html_url").getD "" ++ "/zipball/master/")).status ∧
        (net.fileAt ((dictGet r "html_url").getD "" ++ "/zipball/master/")).status < 300)
    (hbad : dictGet bad "name" = none ∨ dictGet bad "html_url" = none) :
    ∃ st' k, save_repositories client net
      (pre.map Item.record ++ Item.record bad :: post) directory st =
        (st', some (PyErr.keyError k)) := by
  induction pre generalizing st with
  | nil =>
    cases hn : dictGet bad "name" with
    | none => exact ⟨st, "name", by simp [save_repositories, hn]⟩
    | some n =>
      have hb : dictGet bad "html_url" = none := by
        rcases hbad with hb | hb
        · rw [hn] at hb; exact Option.noConfusion hb
        · exact hb
      exact ⟨st, "html_url", by simp [save_repositories, hn, hb]⟩
  | cons r pre ih =>
    have hr := hpre r (List.mem_cons_self r pre)
    obtain ⟨n, hn⟩ := Option.isSome_iff_exists.mp hr.1
    obtain ⟨u, hu⟩ := Option.isSome_iff_exists.mp hr.2
    have h2 := hok r (List.mem_cons_self r pre)
    rw [hu] at h2
    simp only [Option.getD_some] at h2
    have hdl := downloadOk_of_2xx client net (u ++ "/zipball/master/") h2 directory n
      (putLog st ("Saving repository " ++ n ++ " to " ++ directory))
    have hpre' : ∀ x ∈ pre, wellFormed x := fun x hx => hpre x (List.mem_cons_of_mem r hx)
    have hok' : ∀ x ∈ pre,
        200 ≤ (net.fileAt ((dictGet x "html_url").getD "" ++ "/zipball/master/")).status ∧
          (net.fileAt ((dictGet x "html_url").getD "" ++ "/zipball/master/")).status < 300 :=
      fun x hx => hok x (List.mem_cons_of_mem r hx)
    cases hd : download_file client net (u ++ "/zipball/master/") directory n
        (putLog st ("Saving repository " ++ n ++ " to " ++ directory)) with
    | mk st2 e2 =>
      have he2 : e2 = none := by rw [hd] at hdl; exact hdl
      subst he2
      obtain ⟨st', k, hst'⟩ := ih st2 hpre' hok'
      refine ⟨st', k, ?_⟩
      simp only [List.map_cons, List.cons_append, save_repositories, hn, hu, hd]
      exact hst'

/-- A repository record lacking the `name` field. -/
def badRecord : RepoRecord := [("html_url", "https://github.com/alice/bar")]

/-- Witness for C9: under the urllib variant on the concrete network
`netOk` (all downloads 200), with the well-formed `fooRecord` first and
the nameless `badRecord` second, the Exporter ends in a `KeyError`. -/
theorem missing_key_aborts_exporter_witness :
    ∃ st' k, save_repositories Variant.urllib netOk
      ([fooRecord].map Item.record ++ Item.record badRecord :: []) "d" st0 =
        (st', some (PyErr.keyError k)) := by
  exact missing_key_aborts_exporter Variant.urllib netOk "d" st0 [fooRecord] badRecord []
    (by decide) (by decide) (by decide)

lemma create_dir_spec (user : String) (t1 t2 : DateTime) (s : St) :
    (create_directory_if_not_exist user t1 t2 s).1 = directoryName user t1 t2 ∧
      (create_directory_if_not_exist user t1 t2 s).2.fs_files = s.fs_files ∧
      (create_directory_if_not_exist user t1 t2 s).2.trace = s.trace ∧
      directoryName user t1 t2 ∈ (create_directory_if_not_exist user t1 t2 s).2.fs_dirs := by
  simp only [create_directory_if_not_exist]
  split
  · next h => exact ⟨rfl, rfl, rfl, h⟩
  · refine ⟨rfl, rfl, rfl, ?_⟩
    simp [putLog]

/-- The setup phase of `main`: the client log line, the directory creation
and the directory log line; returns the target directory and the state
afterwards. -/
def mainPre (client : Variant) (user : String) (t1 t2 : DateTime) (st : St) : String × St :=
  let st1 := putLog st ("Http client: " ++ variantName client)
  let target_directory := (create_directory_if_not_exist user t1 t2 st1).1
  let st2 := (create_directory_if_not_exist user t1 t2 st1).2
  (target_directory, putLog st2 ("Saving zipball archives in following directory: " ++
    target_directory))

lemma main_eq (client : Variant) (net : Network) (user : String) (t1 t2 : DateTime)
    (fuel : Nat) (st : St) :
    main client net user t1 t2 fuel st =
      match request_for_public_repositories client net user fuel
          (mainPre client user t1 t2 st).2 with
      | none => none
      | some (repositories, st4) =>
        match print_received_repositories repositories st4 with
        | (st5, some e) => some (st5, some e)
        | (st5, none) =>
          match save_repositories client net repositories (mainPre client user t1 t2 st).1 st5 with
          | (st6, some e) => some (st6, some e)
          | (st6, none) => some (putLog st6 "Completed", none) :=
  rfl

lemma main_of_loop (client : Variant) (net : Network) (user : String) (t1 t2 : DateTime)
    (fuel : Nat) (st : St) (items : List Item) (st4 : St)
    (h : repoLoop client net user fuel 0 [] (mainPre client user t1 t2 st).2 =
      some (items, st4)) :
    main client net user t1 t2 fuel st =
      match print_received_repositories items st4 with
      | (st5, some e) => some (st5, some e)
      | (st5, none) =>
        match save_repositories client net items (mainPre client user t1 t2 st).1 st5 with
        | (st6, some e) => some (st6, some e)
        | (st6, none) => some (putLog st6 "Completed", none) := by
  rw [main_eq]
  have hreq : request_for_public_repositories client net user fuel
      (mainPre client user t1 t2 st).2 =
        repoLoop client net user fuel 0 [] (mainPre client user t1 t2 st).2 := rfl
  rw [hreq, h]

lemma printLoop_ok :
    ∀ (items : List Item) (st : St),
      (∀ i ∈ items, ∃ r, i = Item.record r ∧ wellFormed r) →
      ∃ st', printLoop items st = (st', none) := by
  intro items
  induction items with
  | nil => intro st _; exact ⟨st, rfl⟩
  | cons i rest ih =>
    intro st h
    obtain ⟨r, hi, hwf⟩ := h i (List.mem_cons_self i rest)
    subst hi
    obtain ⟨n, hn⟩ := Option.isSome_iff_exists.mp hwf.1
    obtain ⟨st', hst'⟩ := ih (putLog st ("Public repository: " ++ n))
      (fun x hx => h x (List.mem_cons_of_mem _ hx))
    exact ⟨st', by simp only [printLoop, hn]; exact hst'⟩

lemma save_ok (client : Variant) (net : Network) :
    ∀ (items : List Item) (directory : String) (st : St),
      (∀ i ∈ items, ∃ r, i = Item.record r ∧ wellFormed r) →
      (∀ r u, Item.record r ∈ items → dictGet r "html_url" = some u →
        downloadOk client net (u ++ "/zipball/master/")) →
      ∃ st', save_repositories client net items directory st = (st', none) := by
  intro items
  induction items with
  | nil => intro directory st _ _; exact ⟨st, rfl⟩
  | cons i rest ih =>
    intro directory st h hdl
    obtain ⟨r, hi, hwf⟩ := h i (List.mem_cons_self i rest)
    subst hi
    obtain ⟨n, hn⟩ := Option.isSome_iff_exists.mp hwf.1
    obtain ⟨u, hu⟩ := Option.isSome_iff_exists.mp hwf.2
    have hdln := hdl r u (List.mem_cons_self _ rest) hu directory n
      (putLog st ("Saving repository " ++ n ++ " to " ++ directory))
    cases hd : download_file client net (u ++ "/zipball/master/") directory n
        (putLog st ("Saving repository " ++ n ++ " to " ++ directory)) with
    | mk st2 e2 =>
      have he2 : e2 = none := by rw [hd] at hdln; exact hdln
      subst he2
      obtain ⟨st', hst'⟩ := ih directory st2
        (fun x hx => h x (List.mem_cons_of_mem _ hx))
        (fun r' u' hx hu' => hdl r' u' (List.mem_cons_of_mem _ hx) hu')
      exact ⟨st', by simp only [save_repositories, hn, hu, hd]; exact hst'⟩

/-- Claim C2 (amended): under the requests-based variant, on a well-behaved
listing of well-formed records, download errors never surface: whatever
statuses and bodies the network serves for the downloads (the network
`net` is unconstrained on `fileAt`, so every download may fail), `main`
returns with no uncaught exception and its last log line is `Completed`.
The original claim's extension to the urllib variant is refuted separately:
there a failing download raises an uncaught `HTTPError`. -/
theorem download_errors_swallowed (net : Network) (user : String)
    (t1 t2 : DateTime) (st : St) (pages : Nat → List RepoRecord) (k : Nat)
    (hpage : ∀ i, i ≤ k → net.jsonAt (listingUrl user i) = Page.arr (pages i))
    (hk : pages k = [])
    (hne : ∀ i, i < k → pages i ≠ [])
    (hwf : ∀ i, i < k → ∀ r ∈ pages i, wellFormed r) :
    ∃ st', main Variant.requests net user t1 t2 (k + 1) st = some (st', none) ∧
      st'.log.getLast? = some "Completed" := by
  have harr : ∀ j, j < k → net.jsonAt (listingUrl user (0 + j)) = Page.arr (pages (0 + j)) := by
    intro j hj; rw [Nat.zero_add]; exact hpage j (Nat.le_of_lt hj)
  have htruthy : ∀ j, j < k → (net.jsonAt (listingUrl user (0 + j))).truthy = true := by
    intro j hj
    rw [harr j hj]
    have hjne := hne j hj
    simp [Page.truthy, hjne]
  have hfalsy : (net.jsonAt (listingUrl user (0 + k))).truthy = false := by
    rw [Nat.zero_add, hpage k le_rfl]
    simp [Page.truthy, hk]
  obtain ⟨stl, hloop, _, _, _⟩ :=
    repoLoop_stops Variant.requests net user k 0 []
      (mainPre Variant.requests user t1 t2 st).2 htruthy hfalsy
  rw [List.nil_append] at hloop
  have hitems : ∀ i ∈ pagesConcat net user 0 k, ∃ r, i = Item.record r ∧ wellFormed r := by
    rw [pagesConcat_eq net user pages k 0 harr]
    intro i hi
    rw [List.mem_map] at hi
    obtain ⟨r, hr, rfl⟩ := hi
    rw [List.mem_flatten] at hr
    obtain ⟨lst, hlst, hrl⟩ := hr
    rw [List.mem_map] at hlst
    obtain ⟨j, hj, rfl⟩ := hlst
    rw [List.mem_range] at hj
    rw [Nat.zero_add] at hrl
    exact ⟨r, rfl, hwf j hj r hrl⟩
  obtain ⟨stp, hprint⟩ := printLoop_ok (pagesConcat net user 0 k)
    (putLog stl "Got public repositories: ") hitems
  have hpr : print_received_repositories (pagesConcat net user 0 k) stl = (stp, none) := hprint
  obtain ⟨sts, hsave⟩ := save_ok Variant.requests net (pagesConcat net user 0 k)
    (mainPre Variant.requests user t1 t2 st).1 stp hitems
    (fun r u _ _ => downloadOk_requests net (u ++ "/zipball/master/"))
  refine ⟨putLog sts "Completed", ?_, ?_⟩
  · rw [main_of_loop Variant.requests net user t1 t2 (k + 1) st
      (pagesConcat net user 0 k) stl hloop]
    simp only [hpr, hsave]
  · simp [putLog, List.getLast?_concat]

/-- The reading 2024-03-05 14:07:22, used as a concrete clock value. -/
def tW : DateTime := ⟨2024, 3, 5, 14, 7, 22⟩

/-- Claim C2 counterexample: under the urllib variant a download error does
surface and `Completed` is skipped.  On the concrete network `netW`, whose
single listed repository `foo` gets a 404 on download, the run for `alice`
ends with an uncaught `HTTPError 404` and `Completed` is never logged. -/
theorem download_error_surfaces_uncaught :
    (main Variant.urllib netW "alice" tW tW 2 st0).map
        (fun p => (p.2, p.1.log.contains "Completed")) =
      some (some (PyErr.httpError 404), false) := by
  decide

/-- Witness for the amended C2: on the concrete network `netW`, whose
single listed repository `foo` gets a 404 on download, the requests-variant
run still ends cleanly with `Completed`. -/
theorem download_errors_swallowed_witness :
    ∃ st', main Variant.requests netW "alice" tW tW 2 st0 = some (st', none) ∧
      st'.log.getLast? = some "Completed" := by
  exact download_errors_swallowed netW "alice" tW tW st0 pagesW 1
    (by decide) (by decide) (by decide) (by decide)

/-- Claim C7: when the listing is empty at page 0 (a user with zero public
repositories), the run still records the output directory, writes no
archive file at all, raises nothing, and ends with the `Completed` log
line. -/
theorem empty_listing_completes (client : Variant) (net : Network) (user : String)
    (t1 t2 : DateTime) (st : St)
    (h0 : net.jsonAt (listingUrl user 0) = Page.arr []) :
    ∃ st', main client net user t1 t2 1 st = some (st', none) ∧
      st'.fs_files = st.fs_files ∧
      st'.log.getLast? = some "Completed" ∧
      directoryName user t1 t2 ∈ st'.fs_dirs := by
  have hfalsy : (net.jsonAt (listingUrl user (0 + 0))).truthy = false := by
    rw [Nat.add_zero, h0]; rfl
  obtain ⟨stl, hloop, hdirs, hfiles, _⟩ :=
    repoLoop_stops client net user 0 0 [] (mainPre client user t1 t2 st).2
      (fun j hj => absurd hj (Nat.not_lt_zero j)) hfalsy
  have e : ([] : List Item) ++ pagesConcat net user 0 0 = [] := rfl
  rw [e] at hloop
  have hpr : print_received_repositories [] stl =
      (putLog stl "Got public repositories: ", none) := rfl
  have hsv : save_repositories client net [] (mainPre client user t1 t2 st).1
      (putLog stl "Got public repositories: ") =
        (putLog stl "Got public repositories: ", none) := rfl
  obtain ⟨hc1, hc2, hc3, hc4⟩ := create_dir_spec user t1 t2
    (putLog st ("Http client: " ++ variantName client))
  refine ⟨putLog (putLog stl "Got public repositories: ") "Completed", ?_, ?_, ?_, ?_⟩
  · rw [main_of_loop client net user t1 t2 1 st [] stl hloop]
    simp only [hpr, hsv]
  · have h1 : (putLog (putLog stl "Got public repositories: ") "Completed").fs_files =
        stl.fs_files := rfl
    have hm : (mainPre client user t1 t2 st).2.fs_files =
        (create_directory_if_not_exist user t1 t2
          (putLog st ("Http client: " ++ variantName client))).2.fs_files := rfl
    rw [h1, hfiles, hm, hc2]
    rfl
  · simp [putLog, List.getLast?_concat]
  · have h1 : (putLog (putLog stl "Got public repositories: ") "Completed").fs_dirs =
        stl.fs_dirs := rfl
    have hm : (mainPre client user t1 t2 st).2.fs_dirs =
        (create_directory_if_not_exist user t1 t2
          (putLog st ("Http client: " ++ variantName client))).2.fs_dirs := rfl
    rw [h1, hdirs, hm]
    exact hc4

/-- Witness for C7: the concrete network `netOk` lists no repositories, and
the run for user `carol` completes. -/
theorem empty_listing_completes_witness :
    ∃ st', main Variant.urllib netOk "carol" tW tW 1 st0 = some (st', none) ∧
      st'.fs_files = st0.fs_files ∧
      st'.log.getLast? = some "Completed" ∧
      directoryName "carol" tW tW ∈ st'.fs_dirs := by
  exact empty_listing_completes Variant.urllib netOk "carol" tW tW st0 (by decide)

/-- Every HTTP call recorded in `st` was handled by `client`. -/
def TraceOk (client : Variant) (st : St) : Prop :=
  ∀ r ∈ st.trace, r.variant = client

lemma traceOk_extend (client : Variant) (st : St) (r : Req) (h : TraceOk client st)
    (hr : r.variant = client) : TraceOk client { st with trace := st.trace ++ [r] } := by
  intro x hx
  rcases List.mem_append.mp hx with hx | hx
  · exact h x hx
  · rcases List.mem_singleton.mp hx with rfl
    exact hr

lemma repoLoop_traceOk (client : Variant) (net : Network) (user : String) :
    ∀ (fuel idx : Nat) (acc items : List Item) (st st' : St),
      TraceOk client st →
      repoLoop client net user fuel idx acc st = some (items, st') →
      TraceOk client st' := by
  intro fuel
  induction fuel with
  | zero =>
    intro idx acc items st st' _ h
    exact absurd h (by simp [repoLoop])
  | succ fuel ih =>
    intro idx acc items st st' hok h
    rw [repoLoop_succ] at h
    by_cases htr : (net.jsonAt (listingUrl user idx)).truthy = true
    · rw [if_pos htr] at h
      exact ih _ _ _ _ _ (traceOk_extend client st _ hok rfl) h
    · rw [if_neg htr] at h
      simp only [Option.some.injEq, Prod.mk.injEq] at h
      obtain ⟨-, rfl⟩ := h
      exact traceOk_extend client st _ hok rfl

lemma download_file_trace (client : Variant) (net : Network)
    (url directory repository_name : String) (st : St) :
    (download_file client net url directory repository_name st).1.trace =
      st.trace ++ [⟨client, ReqKind.downloadFile, url⟩] := by
  cases client with
  | requests =>
    simp only [download_file]
    split <;> rfl
  | urllib =>
    simp only [download_file]
    split <;> rfl

lemma download_traceOk (client : Variant) (net : Network)
    (url directory repository_name : String) (st : St) (h : TraceOk client st) :
    TraceOk client (download_file client net url directory repository_name st).1 := by
  intro x hx
  rw [download_file_trace] at hx
  rcases List.mem_append.mp hx with hx | hx
  · exact h x hx
  · rcases List.mem_singleton.mp hx with rfl
    rfl

lemma save_traceOk (client : Variant) (net : Network) :
    ∀ (items : List Item) (directory : String) (st st' : St) (e : Option PyErr),
      TraceOk client st →
      save_repositories client net items directory st = (st', e) →
      TraceOk client st' := by
  intro items
  induction items with
  | nil =>
    intro directory st st' e hok h
    simp only [save_repositories, Prod.mk.injEq] at h
    obtain ⟨rfl, -⟩ := h
    exact hok
  | cons i rest ih =>
    intro directory st st' e hok h
    cases i with
    | key s =>
      simp only [save_repositories, Prod.mk.injEq] at h
      obtain ⟨rfl, -⟩ := h
      exact hok
    | record r =>
      cases hn : dictGet r "name" with
      | none =>
        simp only [save_repositories, hn, Prod.mk.injEq] at h
        obtain ⟨rfl, -⟩ := h
        exact hok
      | some n =>
        cases hu : dictGet r "html_url" with
        | none =>
          simp only [save_repositories, hn, hu, Prod.mk.injEq] at h
          obtain ⟨rfl, -⟩ := h
          exact hok
        | some u =>
          simp only [save_repositories, hn, hu] at h
          cases hd : download_file client net (u ++ "/zipball/master/") directory n
              (putLog st ("Saving repository " ++ n ++ " to " ++ directory)) with
          | mk st2 e2 =>
            have hok2 : TraceOk client st2 := by
              have hdt := download_traceOk client net (u ++ "/zipball/master/") directory n
                (putLog st ("Saving repository " ++ n ++ " to " ++ directory))
                (fun x hx => hok x hx)
              rw [hd] at hdt
              exact hdt
            rw [hd] at h
            cases e2 with
            | some e' =>
              have h2 : ((st2, some e') : St × Option PyErr) = (st', e) := h
              simp only [Prod.mk.injEq] at h2
              obtain ⟨rfl, -⟩ := h2
              exact hok2
            | none =>
              have h2 : save_repositories client net rest directory st2 = (st', e) := h
              exact ih directory st2 st' e hok2 h2

lemma printLoop_trace :
    ∀ (items : List Item) (st st' : St) (e : Option PyErr),
      printLoop items st = (st', e) → st'.trace = st.trace := by
  intro items
  induction items with
  | nil =>
    intro st st' e h
    simp only [printLoop, Prod.mk.injEq] at h
    obtain ⟨rfl, -⟩ := h
    rfl
  | cons i rest ih =>
    intro st st' e h
    cases i with
    | key s =>
      simp only [printLoop, Prod.mk.injEq] at h
      obtain ⟨rfl, -⟩ := h
      rfl
    | record r =>
      cases hn : dictGet r "name" with
      | none =>
        simp only [printLoop, hn, Prod.mk.injEq] at h
        obtain ⟨rfl, -⟩ := h
        rfl
      | some n =>
        simp only [printLoop, hn] at h
        exact ih (putLog st ("Public repository: " ++ n)) st' e h

lemma mainPre_trace (client : Variant) (user : String) (t1 t2 : DateTime) (st : St) :
    (mainPre client user t1 t2 st).2.trace = st.trace := by
  obtain ⟨-, -, hc3, -⟩ := create_dir_spec user t1 t2
    (putLog st ("Http client: " ++ variantName client))
  have hm : (mainPre client user t1 t2 st).2.trace =
      (create_directory_if_not_exist user t1 t2
        (putLog st ("Http client: " ++ variantName client))).2.trace := rfl
  rw [hm, hc3]
  rfl

lemma main_traceOk (client : Variant) (net : Network) (user : String) (t1 t2 : DateTime)
    (fuel : Nat) (st st' : St) (e : Option PyErr)
    (hok : TraceOk client st)
    (h : main client net user t1 t2 fuel st = some (st', e)) : TraceOk client st' := by
  rw [main_eq] at h
  cases hreq : request_for_public_repositories client net user fuel
      (mainPre client user t1 t2 st).2 with
  | none => rw [hreq] at h; exact absurd h (by simp)
  | some p =>
    obtain ⟨items, st4⟩ := p
    rw [hreq] at h
    have hok4 : TraceOk client st4 := by
      refine repoLoop_traceOk client net user fuel 0 [] items
        (mainPre client user t1 t2 st).2 st4 ?_ hreq
      intro x hx
      rw [mainPre_trace] at hx
      exact hok x hx
    have h2 : (match print_received_repositories items st4 with
        | (st5, some e) => some (st5, some e)
        | (st5, none) =>
          match save_repositories client net items (mainPre client user t1 t2 st).1 st5 with
          | (st6, some e) => some (st6, some e)
          | (st6, none) => some (putLog st6 "Completed", none)) = some (st', e) := h
    cases hpr : print_received_repositories items st4 with
    | mk st5 e5 =>
      have hok5 : TraceOk client st5 := by
        intro x hx
        have := printLoop_trace items (putLog st4 "Got public repositories: ") st5 e5 hpr
        rw [this] at hx
        exact hok4 x hx
      rw [hpr] at h2
      cases e5 with
      | some e' =>
        have h3 : (some (st5, some e') : Option (St × Option PyErr)) = some (st', e) := h2
        simp only [Option.some.injEq, Prod.mk.injEq] at h3
        obtain ⟨rfl, -⟩ := h3
        exact hok5
      | none =>
        have h3 : (match save_repositories client net items
            (mainPre client user t1 t2 st).1 st5 with
            | (st6, some e) => some (st6, some e)
            | (st6, none) => some (putLog st6 "Completed", none)) = some (st', e) := h2
        cases hsv : save_repositories client net items (mainPre client user t1 t2 st).1 st5 with
        | mk st6 e6 =>
          have hok6 : TraceOk client st6 :=
            save_traceOk client net items (mainPre client user t1 t2 st).1 st5 st6 e6 hok5 hsv
          rw [hsv] at h3
          cases e6 with
          | some e' =>
            have h4 : (some (st6, some e') : Option (St × Option PyErr)) = some (st', e) := h3
            simp only [Option.some.injEq, Prod.mk.injEq] at h4
            obtain ⟨rfl, -⟩ := h4
            exact hok6
          | none =>
            have h4 : (some (putLog st6 "Completed", none) : Option (St × Option PyErr)) =
              some (st', e) := h3
            simp only [Option.some.injEq, Prod.mk.injEq] at h4
            obtain ⟨rfl, -⟩ := h4
            intro x hx
            exact hok6 x hx

/-- Claim C8: the Gateway variant is selected exactly once at process
start: with the requests library importable the requests variant is chosen
and nothing is printed; without it the fallback notice is printed and the
urllib variant is chosen; and every fetch-JSON and download-file call of
any run is handled by the selected variant. -/
theorem gateway_variant_selection (avail : Bool) (errText : String) (net : Network)
    (user : String) (t1 t2 : DateTime) (fuel : Nat) :
    processStart true errText = (Variant.requests, []) ∧
      processStart false errText =
        (Variant.urllib,
          ["Unable to initialize requests http client, " ++ errText,
           "Fallback to urllib client..."]) ∧
      (traceVariants (main (processStart avail errText).1 net user t1 t2 fuel st0)).all
        (fun v => v == (processStart avail errText).1) = true := by
  refine ⟨rfl, rfl, ?_⟩
  cases hm : main (processStart avail errText).1 net user t1 t2 fuel st0 with
  | none => rfl
  | some p =>
    obtain ⟨st', e⟩ := p
    have hok : TraceOk (processStart avail errText).1 st' :=
      main_traceOk (processStart avail errText).1 net user t1 t2 fuel st0 st' e
        (fun x hx => absurd hx (by simp [st0])) hm
    rw [List.all_eq_true]
    intro v hv
    rw [traceVariants, List.mem_map] at hv
    obtain ⟨r, hr, rfl⟩ := hv
    rw [beq_iff_eq]
    exact hok r hr

end GithubZipballCollector
